import Mathlib

/-!
Shallow embedding of the Lesson Timeline Engine from
`Shadowing_English_2025_11_24_R0.cpp`, together with proofs and refutations
of the specification claims.  `QString` values are embedded as `List Char`,
`double` as `ℚ` (exact arithmetic), and the Qt widgets' relevant state as
explicit structures.
-/

namespace Shadowing

/-- Strings are lists of characters. -/
abbrev Str := List Char

/-- `QString::trimmed` strips leading whitespace. -/
def trimL (s : Str) : Str := s.dropWhile Char.isWhitespace

/-- `QString::trimmed` strips trailing whitespace. -/
def trimR (s : Str) : Str := (s.reverse.dropWhile Char.isWhitespace).reverse

/-- `QString::trimmed`: strips whitespace from both ends. -/
def trim (s : Str) : Str := trimR (trimL s)

/-- The non-whitespace characters of a string, in order. -/
def nonWhite (s : Str) : Str := s.filter (fun c => !c.isWhitespace)

/-- `std::round` rounds half away from zero; the result is integral. -/
def cppRound (x : ℚ) : Int := if x < 0 then -⌊-x + 1/2⌋ else ⌊x + 1/2⌋

/-- Decimal digit character for a digit value. -/
def digitChar (d : Nat) : Char := Char.ofNat (48 + d)

/-- Decimal rendering of a nonnegative integer, most significant digit
first, driven by a structurally decreasing fuel argument; any fuel larger
than the digit count yields the full rendering. -/
def natToStrAux : Nat → Nat → Str
  | 0, _ => []
  | fuel + 1, n =>
      if n < 10 then [digitChar n]
      else natToStrAux fuel (n / 10) ++ [digitChar (n % 10)]

/-- Decimal rendering of a nonnegative integer, as `QString::arg(int)`
renders it (`n + 1` units of fuel always suffice). -/
def natToStr (n : Nat) : Str := natToStrAux (n + 1) n

/-- Left zero-padding to a minimum field width, as in
`QString::arg(value, width, 10, QLatin1Char('0'))`. -/
def padLeft (w : Nat) (s : Str) : Str := List.replicate (w - s.length) '0' ++ s

/-- Numeric value of a list of decimal digit characters
(the accumulator loop inside Qt's string-to-number conversion). -/
def digitsToNat (ds : Str) : Nat := ds.foldl (fun a c => a * 10 + (c.toNat - 48)) 0

/-- `formatTime` (lines 53–65): `""` for negative input, otherwise round to
the nearest millisecond and render as `mm:ss.mmm` with zero padding. -/
def formatTime (sec : ℚ) : Str :=
  if sec < 0 then []
  else
    let msec := (cppRound (sec * 1000)).toNat
    let minutes := msec / 60000
    let msec1 := msec - minutes * 60000
    let seconds := msec1 / 1000
    let msec2 := msec1 - seconds * 1000
    padLeft 2 (natToStr minutes) ++ ':' :: (padLeft 2 (natToStr seconds) ++ '.' :: padLeft 3 (natToStr msec2))

/-- `QString::split(sep)` keeping empty parts (the scanning loop). -/
def splitCharAux (sep : Char) : Str → Str → List Str
  | acc, [] => [acc.reverse]
  | acc, c :: rest =>
      if c = sep then acc.reverse :: splitCharAux sep [] rest
      else splitCharAux sep (c :: acc) rest

/-- `QString::split(sep)`. -/
def splitChar (sep : Char) (s : Str) : List Str := splitCharAux sep [] s

/-- Optional leading sign of a numeric literal; returns the sign as `1`
or `-1` together with the remaining characters. -/
def signSplit (s : Str) : Int × Str :=
  if s.head? = some '-' then (-1, s.tail)
  else if s.head? = some '+' then (1, s.tail)
  else (1, s)

/-- `QString::toInt` (base 10, C locale): surrounding whitespace ignored,
an optional sign followed by at least one digit and nothing else. -/
def toIntQ (s : Str) : Option Int :=
  let t := trim s
  let p := signSplit t
  let ds := p.2.takeWhile Char.isDigit
  let tl := p.2.dropWhile Char.isDigit
  if ds.isEmpty || !tl.isEmpty then none
  else some (p.1 * (digitsToNat ds : Int))

/-- The syntactic shape of a C-locale floating literal: sign, integer-part
digits, fraction digits, exponent. -/
structure DecLit where
  sign : Int
  ip : Str
  fp : Str
  ex : Int
deriving DecidableEq

/-- Exponent suffix of a C-locale floating literal: either nothing, or
`e`/`E` followed by an optional sign and at least one digit. -/
def expParse (r : Str) : Option Int :=
  if r.isEmpty then some 0
  else if r.head? = some 'e' ∨ r.head? = some 'E' then
    let p := signSplit r.tail
    let ds := p.2.takeWhile Char.isDigit
    let tl := p.2.dropWhile Char.isDigit
    if ds.isEmpty || !tl.isEmpty then none
    else some (p.1 * (digitsToNat ds : Int))
  else none

/-- Syntactic analysis of `QString::toDouble` input (C locale): surrounding
whitespace ignored, an optional sign, a decimal mantissa with at least one
digit, an optional exponent, and nothing else. -/
def parseDecLit (s : Str) : Option DecLit :=
  let t := trim s
  let p := signSplit t
  let ip := p.2.takeWhile Char.isDigit
  let r1 := p.2.dropWhile Char.isDigit
  if r1.head? = some '.' then
    let fp := r1.tail.takeWhile Char.isDigit
    let r3 := r1.tail.dropWhile Char.isDigit
    if ip.isEmpty && fp.isEmpty then none
    else (expParse r3).map (fun ex => ⟨p.1, ip, fp, ex⟩)
  else
    if ip.isEmpty then none
    else (expParse r1).map (fun ex => ⟨p.1, ip, [], ex⟩)

/-- The rational value denoted by a parsed floating literal. -/
def litVal (l : DecLit) : ℚ :=
  (l.sign : ℚ) * ((digitsToNat l.ip : ℚ) + (digitsToNat l.fp : ℚ) / 10 ^ l.fp.length) * (10 : ℚ) ^ l.ex

/-- `QString::toDouble`: the value of the literal when it parses. -/
def toDoubleQ (s : Str) : Option ℚ := (parseDecLit s).map litVal

/-- `parseTime` (lines 67–80): trim, require exactly two `:`-separated
parts, convert them with `toInt`/`toDouble`, and combine; every failure
path returns the sentinel `-1`. -/
def parseTime (s : Str) : ℚ :=
  let t := trim s
  if t.isEmpty then -1
  else
    match splitChar ':' t with
    | [mPart, sPart] =>
        match toIntQ mPart, toDoubleQ sPart with
        | some minutes, some secFloat => (minutes : ℚ) * 60 + secFloat
        | _, _ => -1
    | _ => -1

/-! ## Data model -/

/-- The `Sentence` record (lines 42–49).  A negative `begin`/`end` means
"not yet timed"; the C++ member `end` is named `end_` here because `end`
is a Lean keyword. -/
structure Sentence where
  id : Int := 0
  begin : ℚ := -1
  end_ : ℚ := -1
  text : Str := []
  confirm : Bool := false
deriving DecidableEq

/-- The tolerance `1e-4` used by the "did the value actually change"
tests in `setTimeFromPlayHead` and `setTimeFromEditor`. -/
def EPS : ℚ := 1/10000

/-- The common body of `setTimeFromPlayHead` (lines 1192–1227) and
`setTimeFromEditor` (lines 1229–1268) once the new time `t` is known:
overwrite the targeted bound when it differs from `t` by more than `1e-4`,
and clear `confirm` when such a change happened. -/
def applyTime (isBegin : Bool) (t : ℚ) (s : Sentence) : Sentence :=
  if isBegin then
    if |s.begin - t| > EPS then
      { s with begin := t, confirm := if s.confirm then false else s.confirm }
    else s
  else
    if |s.end_ - t| > EPS then
      { s with end_ := t, confirm := if s.confirm then false else s.confirm }
    else s

/-- `SetupTab::setTimeFromEditor` (lines 1229–1268), restricted to the
selected sentence: parse the editor text, bail out (state unchanged) on a
negative result, otherwise apply the parsed time. -/
def setTimeFromEditor (isBegin : Bool) (editorText : Str) (s : Sentence) : Sentence :=
  let t := parseTime editorText
  if t < 0 then s else applyTime isBegin t s

/-- `SetupTab::setTimeFromPlayHead` (lines 1192–1227), restricted to the
selected sentence: take the player position in milliseconds and apply it. -/
def setTimeFromPlayHead (isBegin : Bool) (posMs : Int) (s : Sentence) : Sentence :=
  applyTime isBegin ((posMs : ℚ) / 1000) s

/-- `SetupTab::adjustTime` (lines 1270–1297), restricted to the selected
sentence: a negative (undefined) bound is replaced by `0.0`, the delta is
added, a negative result is clamped to `0.0`, and `confirm` is cleared. -/
def adjustTime (isBegin : Bool) (delta : ℚ) (s : Sentence) : Sentence :=
  let v0 := if isBegin then s.begin else s.end_
  let v1 := if v0 < 0 then 0 else v0
  let v2 := v1 + delta
  let v3 := if v2 < 0 then 0 else v2
  if isBegin then { s with begin := v3, confirm := if s.confirm then false else s.confirm }
  else { s with end_ := v3, confirm := if s.confirm then false else s.confirm }

/-- The `itemChanged` handler's column-3 branch (lines 842–845): a manual
edit of the content cell stores the new text and touches nothing else. -/
def itemChangedText (newText : Str) (s : Sentence) : Sentence := { s with text := newText }

/-! ## Text segmentation -/

/-- Word splitting on runs of whitespace, `Qt::SkipEmptyParts`
(`split(QRegularExpression("\\s+"), Qt::SkipEmptyParts)`). -/
def splitWsAux : Str → Str → List Str
  | acc, [] => if acc.isEmpty then [] else [acc.reverse]
  | acc, c :: rest =>
      if c.isWhitespace then
        if acc.isEmpty then splitWsAux [] rest
        else acc.reverse :: splitWsAux [] rest
      else splitWsAux (c :: acc) rest

/-- Word splitting on whitespace, skipping empty parts. -/
def splitWs (s : Str) : List Str := splitWsAux [] s

/-- `countWords` (lines 82–87). -/
def countWords (s : Str) : Nat := (splitWs s).length

/-- Sentence-terminator test for the base splitter's regular expression
`([^.!?]+[.!?])`. -/
def isTerm (c : Char) : Bool := c == '.' || c == '!' || c == '?'

/-- The global-match loop of `baseSplitSentences` (lines 90–107): each
match is a maximal run of non-terminators followed by one terminator;
`acc` holds the reversed run scanned so far.  A trailing run without a
terminator is not a match and is discarded. -/
def baseScanAux : Str → Str → List Str
  | _, [] => []
  | acc, c :: rest =>
      if isTerm c then
        if acc.isEmpty then baseScanAux [] rest
        else
          let s := trim (acc.reverse ++ [c])
          if s.isEmpty then baseScanAux [] rest else s :: baseScanAux [] rest
      else baseScanAux (c :: acc) rest

/-- `baseSplitSentences` (lines 90–107): regex matches, or the whole
trimmed text as a single candidate when there is no match. -/
def baseSplitSentences (text : Str) : List Str :=
  let result := baseScanAux [] text
  if result.isEmpty then
    let s := trim text
    if s.isEmpty then [] else [s]
  else result

/-- `MAX_WORDS` (line 115). -/
def MAX_WORDS : Nat := 25

/-- `QString::toLower`, ASCII. -/
def toLowerStr (s : Str) : Str := s.map Char.toLower

/-- The priority break-token test of the advanced splitter (lines
133–138): a fixed conjunction (case-insensitive) or a trailing comma. -/
def isBreakTok (w : Str) : Bool :=
  toLowerStr w == "and".toList || toLowerStr w == "but".toList ||
  toLowerStr w == "because".toList || toLowerStr w == "so".toList ||
  toLowerStr w == "however".toList || w.getLast? == some ','

/-- `QStringList::join(" ")`. -/
def joinSpace : List Str → Str
  | [] => []
  | [w] => w
  | w :: v :: rest => w ++ ' ' :: joinSpace (v :: rest)

/-- The re-splitting loop of the advanced splitter (lines 129–149):
`cur` holds (reversed) the words accumulated since the last split point;
a split happens at a break token once at least `MAX_WORDS / 2` words have
accumulated before it, and the remainder becomes a final segment. -/
def resplitAux : List Str → List Str → List Str
  | [], cur => if cur.isEmpty then [] else [trim (joinSpace cur.reverse)]
  | w :: rest, cur =>
      if MAX_WORDS / 2 ≤ cur.length ∧ isBreakTok w then
        trim (joinSpace (cur.reverse ++ [w])) :: resplitAux rest []
      else resplitAux rest (w :: cur)

/-- `splitTextIntoSentencesAdvanced` (lines 110–156). -/
def splitTextIntoSentencesAdvanced (text : Str) : List Str :=
  let base := baseSplitSentences text
  let out := (base.map fun s0 =>
    let s := trim s0
    if s.isEmpty then []
    else
      let words := splitWs s
      if words.length ≤ MAX_WORDS then [s]
      else resplitAux words []).flatten
  if out.isEmpty then base else out

/-! ## Auto-timing estimator -/

/-- The assignment loop of `autoAssignTimesIfEmpty` (lines 1324–1332):
walk the sentences with a running cursor `t`, give each sentence the span
`duration * wordCount / totalWords`. -/
def assignLoop (duration : ℚ) (totalWords : Nat) : ℚ → List (Sentence × Nat) → List Sentence
  | _, [] => []
  | t, (s, w) :: rest =>
      let frac : ℚ := (w : ℚ) / (totalWords : ℚ)
      let len := duration * frac
      { s with begin := t, end_ := t + len } :: assignLoop duration totalWords (t + len) rest

/-- `SetupTab::autoAssignTimesIfEmpty` (lines 1299–1340): runs only when
the duration is positive, the sentence list is non-empty and no sentence
has a valid range (`begin >= 0 && end > begin`); weights are word counts
clamped below by 1. -/
def autoAssignTimesIfEmpty (duration : ℚ) (ss : List Sentence) : List Sentence :=
  if duration ≤ 0 then ss
  else if ss.isEmpty then ss
  else if ∃ s ∈ ss, 0 ≤ s.begin ∧ s.begin < s.end_ then ss
  else
    let wordCounts := ss.map fun s =>
      let c := countWords s.text
      if c ≤ 0 then 1 else c
    let totalWords := wordCounts.sum
    let totalWords := if totalWords ≤ 0 then ss.length else totalWords
    assignLoop duration totalWords 0 (ss.zip wordCounts)

/-! ## Waveform viewport -/

/-- The viewport-relevant state of `WaveformWidget`. -/
structure ViewState where
  duration : ℚ
  viewStart : ℚ
  viewEnd : ℚ
  hasView : Bool
deriving DecidableEq

/-- `WaveformWidget::fitAll` (lines 299–306). -/
def fitAll (v : ViewState) : ViewState :=
  if v.duration ≤ 0 then v
  else { v with viewStart := 0, viewEnd := v.duration, hasView := false }

/-- `WaveformWidget::autoZoomToSegment` (lines 309–342), the
"20–60–20" auto-zoom. -/
def autoZoomToSegment (v : ViewState) (b e : ℚ) : ViewState :=
  if v.duration ≤ 0 ∨ b < 0 ∨ e ≤ b then fitAll v
  else
    let segStart := max 0 b
    let segEnd := min v.duration e
    let segLen := max (1/20) (segEnd - segStart)
    let viewLen := min (segLen / (3/5)) v.duration
    let margin := (viewLen - segLen) / 2
    let vs0 := segStart - margin
    let ve0 := segEnd + margin
    let vs1 := if vs0 < 0 then 0 else vs0
    let ve1 := if vs0 < 0 then ve0 - vs0 else ve0
    let vs2 :=
      if ve1 > v.duration then
        (if vs1 - (ve1 - v.duration) < 0 then 0 else vs1 - (ve1 - v.duration))
      else vs1
    let ve2 := if ve1 > v.duration then v.duration else ve1
    { v with viewStart := vs2, viewEnd := ve2, hasView := true }

/-! ## JSON persistence -/

/-- The JSON documents `QJsonDocument` can hold, as built by the save
path. -/
inductive Json where
  | str : Str → Json
  | num : ℚ → Json
  | boolean : Bool → Json
  | null : Json
  | arr : List Json → Json
  | obj : List (String × Json) → Json

/-- The per-sentence object written by `saveLessonJson` (lines 218–226). -/
def sentenceToJson (s : Sentence) : Json :=
  .obj [("id", .num s.id), ("begin", .num s.begin), ("end", .num s.end_),
        ("text", .str s.text), ("confirmed", .boolean s.confirm)]

/-- `saveLessonJson` (lines 204–241): the complete document written to
disk (the file write itself is I/O and out of scope). -/
def saveLessonJson (audioPath textPath : Str) (sentences : List Sentence)
    (playSpeed : ℚ) (lastSentence : Int) : Json :=
  .obj [("audio_path", .str audioPath), ("text_path", .str textPath),
        ("play_speed", .num playSpeed), ("last_selected_sentence", .num lastSentence),
        ("sentences", .arr (sentences.map sentenceToJson))]

/-- The top-level keys of a JSON object. -/
def jsonKeys : Json → List String
  | .obj kvs => kvs.map Prod.fst
  | _ => []

/-! ## Practice tab hide/show -/

/-- One row of the Practice sentence table: the backing sentence text and
the widget state the handler manipulates. -/
structure PracticeRow where
  text : Str
  contentCell : Str
  hideChecked : Bool
  showChecked : Bool
deriving DecidableEq

/-- The constant mask written into the content cell in hide mode
(line 1837). -/
def maskStr : Str := "_________________________".toList

/-- `PracticeTab::handleHideShowClicked` (lines 1823–1848), restricted to
one row: column 2 checks Hide and replaces the displayed content by the
fixed mask; column 3 checks Show and restores the stored sentence text;
other columns do nothing. -/
def handleHideShowClicked (col : Nat) (r : PracticeRow) : PracticeRow :=
  if col ≠ 2 ∧ col ≠ 3 then r
  else if col = 2 then
    { r with hideChecked := true, showChecked := false, contentCell := maskStr }
  else
    { r with hideChecked := false, showChecked := true, contentCell := r.text }

/-- The spec's `round_to_ms`: a time value rounded to the nearest
millisecond (with the same rounding `formatTime` uses). -/
def roundToMs (t : ℚ) : ℚ := (cppRound (t * 1000) : ℚ) / 1000

/-- The bound of a sentence targeted by a timing operation (`begin` when
`isBegin`, `end` otherwise). -/
def timeField (isBegin : Bool) (s : Sentence) : ℚ := if isBegin then s.begin else s.end_

/-- The digit string `formatTime` produces for a (nonnegative) number of
milliseconds. -/
def renderMsec (n : Nat) : Str :=
  padLeft 2 (natToStr (n / 60000)) ++ ':' ::
    (padLeft 2 (natToStr (n % 60000 / 1000)) ++ '.' :: padLeft 3 (natToStr (n % 1000)))

/-! ## Helper lemmas: characters -/

theorem isDigit_isWhitespace_false {c : Char} (h : c.isDigit = true) :
    c.isWhitespace = false := by
  by_contra hw
  rw [Bool.not_eq_false] at hw
  have hw2 : c = ' ' ∨ c = '\t' ∨ c = '\x0d' ∨ c = '\n' := by
    simpa [Char.isWhitespace, or_assoc] using hw
  rcases hw2 with h1 | h1 | h1 | h1 <;> subst h1 <;> simp at h

theorem isTerm_isWhitespace_false {c : Char} (h : isTerm c = true) :
    c.isWhitespace = false := by
  have h2 : c = '.' ∨ c = '!' ∨ c = '?' := by
    simpa [isTerm, or_assoc] using h
  rcases h2 with h1 | h1 | h1 <;> subst h1 <;> decide

theorem digitChar_isDigit {d : Nat} (h : d < 10) : (digitChar d).isDigit = true := by
  interval_cases d <;> decide

theorem digitChar_toNat {d : Nat} (h : d < 10) : (digitChar d).toNat = 48 + d := by
  interval_cases d <;> decide

theorem isDigit_ne_colon {c : Char} (h : c.isDigit = true) : c ≠ ':' := by
  intro h1; subst h1; simp at h

theorem isDigit_ne_dot {c : Char} (h : c.isDigit = true) : c ≠ '.' := by
  intro h1; subst h1; simp at h

theorem isDigit_ne_minus {c : Char} (h : c.isDigit = true) : c ≠ '-' := by
  intro h1; subst h1; simp at h

theorem isDigit_ne_plus {c : Char} (h : c.isDigit = true) : c ≠ '+' := by
  intro h1; subst h1; simp at h

/-! ## Helper lemmas: trimming and whitespace -/

theorem dropWhile_eq_self_of_all {p : Char → Bool} {s : Str}
    (h : ∀ c ∈ s, p c = false) : s.dropWhile p = s := by
  cases s with
  | nil => rfl
  | cons a l =>
      rw [List.dropWhile_cons, if_neg]
      simp [h a (by simp)]

theorem trim_eq_self {s : Str} (h : ∀ c ∈ s, c.isWhitespace = false) : trim s = s := by
  have h1 : trimL s = s := dropWhile_eq_self_of_all h
  have h2 : trimR s = s := by
    rw [trimR, dropWhile_eq_self_of_all (by intro c hc; exact h c (List.mem_reverse.mp hc)),
      List.reverse_reverse]
  rw [trim, h1, h2]

theorem nonWhite_append (a b : Str) : nonWhite (a ++ b) = nonWhite a ++ nonWhite b :=
  List.filter_append ..

theorem nonWhite_eq_self {s : Str} (h : ∀ c ∈ s, c.isWhitespace = false) :
    nonWhite s = s := by
  rw [nonWhite, List.filter_eq_self]
  intro c hc
  simp [h c hc]

theorem nonWhite_dropWhile_white (s : Str) :
    nonWhite (s.dropWhile Char.isWhitespace) = nonWhite s := by
  induction s with
  | nil => rfl
  | cons a l ih =>
      by_cases ha : a.isWhitespace = true
      · rw [List.dropWhile_cons, if_pos (by simp [ha]), ih]
        simp [nonWhite, List.filter_cons, ha]
      · rw [List.dropWhile_cons, if_neg (by simp_all)]

theorem nonWhite_reverse (s : Str) : nonWhite s.reverse = (nonWhite s).reverse :=
  List.filter_reverse ..

theorem nonWhite_trim (s : Str) : nonWhite (trim s) = nonWhite s := by
  rw [trim, trimR, nonWhite_reverse, nonWhite_dropWhile_white, nonWhite_reverse,
    List.reverse_reverse, trimL, nonWhite_dropWhile_white]

/-! ## Helper lemmas: digit strings -/

theorem digitsToNat_append (a b : Str) :
    digitsToNat (a ++ b) = b.foldl (fun x c => x * 10 + (c.toNat - 48)) (digitsToNat a) := by
  rw [digitsToNat, List.foldl_append]
  rfl

theorem digitsToNat_cons_zero (s : Str) : digitsToNat ('0' :: s) = digitsToNat s := by
  rw [digitsToNat, digitsToNat, List.foldl_cons,
    show 0 * 10 + ('0'.toNat - 48) = 0 from by decide]

theorem digitsToNat_padLeft (w : Nat) (s : Str) :
    digitsToNat (padLeft w s) = digitsToNat s := by
  rw [padLeft]
  induction (w - s.length) with
  | zero => rfl
  | succ k ih => rw [List.replicate_succ, List.cons_append, digitsToNat_cons_zero, ih]

theorem digitsToNat_snoc (a : Str) (c : Char) :
    digitsToNat (a ++ [c]) = digitsToNat a * 10 + (c.toNat - 48) := by
  rw [digitsToNat_append]
  rfl

theorem mem_padLeft {c : Char} {w : Nat} {s : Str} (h : c ∈ padLeft w s) :
    c = '0' ∨ c ∈ s := by
  rcases List.mem_append.mp h with h1 | h1
  · exact Or.inl (List.eq_of_mem_replicate h1)
  · exact Or.inr h1

theorem padLeft_isDigit {w : Nat} {s : Str} (h : ∀ c ∈ s, c.isDigit = true) :
    ∀ c ∈ padLeft w s, c.isDigit = true := by
  intro c hc
  rcases mem_padLeft hc with h1 | h1
  · subst h1; decide
  · exact h c h1

theorem padLeft_ne_nil {w : Nat} {s : Str} (h : s ≠ []) : padLeft w s ≠ [] := by
  rw [padLeft]
  intro hcon
  exact h (List.append_eq_nil.mp hcon).2

theorem length_padLeft_of_le {w : Nat} {s : Str} (h : s.length ≤ w) :
    (padLeft w s).length = w := by
  rw [padLeft, List.length_append, List.length_replicate]
  omega

theorem natToStrAux_ne_nil {fuel n : Nat} (h : 1 ≤ fuel) : natToStrAux fuel n ≠ [] := by
  cases fuel with
  | zero => omega
  | succ k =>
      rw [natToStrAux]
      split
      · simp
      · simp

theorem natToStrAux_isDigit : ∀ (fuel n : Nat), ∀ c ∈ natToStrAux fuel n, c.isDigit = true := by
  intro fuel
  induction fuel with
  | zero => intro n c hc; simp [natToStrAux] at hc
  | succ k ih =>
      intro n c hc
      rw [natToStrAux] at hc
      split at hc
      · rcases List.mem_singleton.mp hc with h1
        subst h1
        exact digitChar_isDigit (by omega)
      · rcases List.mem_append.mp hc with h1 | h1
        · exact ih _ c h1
        · rcases List.mem_singleton.mp h1 with h2
          subst h2
          exact digitChar_isDigit (Nat.mod_lt _ (by omega))

theorem natToStrAux_val : ∀ (fuel n : Nat), n < 10 ^ fuel →
    digitsToNat (natToStrAux fuel n) = n := by
  intro fuel
  induction fuel with
  | zero => intro n h; interval_cases n; rfl
  | succ k ih =>
      intro n h
      rw [natToStrAux]
      split
      · rename_i h10
        rw [show [digitChar n] = [] ++ [digitChar n] from rfl, digitsToNat_snoc,
          digitChar_toNat h10]
        simp [digitsToNat]
      · rename_i h10
        push_neg at h10
        rw [digitsToNat_snoc, ih (n / 10) (by rw [pow_succ] at h; omega),
          digitChar_toNat (Nat.mod_lt _ (by omega))]
        omega

theorem natToStrAux_length_le : ∀ (fuel n k : Nat), n < 10 ^ k → 1 ≤ k →
    (natToStrAux fuel n).length ≤ k := by
  intro fuel
  induction fuel with
  | zero => intro n k _ _; simp [natToStrAux]
  | succ f ih =>
      intro n k h hk
      rw [natToStrAux]
      split
      · simpa using hk
      · rename_i h10
        push_neg at h10
        have hk2 : 2 ≤ k := by
          by_contra hcon
          have : k = 1 := by omega
          subst this
          simp at h
          omega
        rw [List.length_append]
        have := ih (n / 10) (k - 1) (by
          have hp : 10 ^ k = 10 ^ (k - 1) * 10 := by
            rw [← pow_succ]
            congr 1
            omega
          rw [hp] at h
          omega) (by omega)
        simp only [List.length_singleton]
        omega

theorem natToStr_val (n : Nat) : digitsToNat (natToStr n) = n :=
  natToStrAux_val (n + 1) n (Nat.lt_trans (Nat.lt_pow_self (by norm_num) n)
    (Nat.pow_lt_pow_succ (by norm_num)))

theorem natToStr_isDigit (n : Nat) : ∀ c ∈ natToStr n, c.isDigit = true :=
  natToStrAux_isDigit (n + 1) n

theorem natToStr_ne_nil (n : Nat) : natToStr n ≠ [] :=
  natToStrAux_ne_nil (by omega)

theorem natToStr_length_le {n k : Nat} (h : n < 10 ^ k) (hk : 1 ≤ k) :
    (natToStr n).length ≤ k :=
  natToStrAux_length_le (n + 1) n k h hk

/-! ## Helper lemmas: splitting and scanning -/

theorem splitCharAux_no_sep {sep : Char} : ∀ (b acc : Str), sep ∉ b →
    splitCharAux sep acc b = [acc.reverse ++ b]
  | [], acc, _ => by simp [splitCharAux]
  | c :: rest, acc, h => by
      rw [splitCharAux, if_neg (by rintro rfl; exact h (by simp)),
        splitCharAux_no_sep rest (c :: acc) (fun hm => h (by simp [hm]))]
      simp

theorem splitCharAux_mid {sep : Char} : ∀ (a acc : Str) (b : Str), sep ∉ a →
    splitCharAux sep acc (a ++ sep :: b) = (acc.reverse ++ a) :: splitCharAux sep [] b
  | [], acc, b, _ => by simp [splitCharAux]
  | c :: rest, acc, b, h => by
      rw [List.cons_append, splitCharAux, if_neg (by rintro rfl; exact h (by simp)),
        splitCharAux_mid rest (c :: acc) b (fun hm => h (by simp [hm]))]
      simp

theorem splitChar_pair {sep : Char} {a b : Str} (ha : sep ∉ a) (hb : sep ∉ b) :
    splitChar sep (a ++ sep :: b) = [a, b] := by
  rw [splitChar, splitCharAux_mid a [] b ha, splitCharAux_no_sep b [] hb]
  simp

theorem takeWhile_all {p : Char → Bool} : ∀ {a : Str}, (∀ c ∈ a, p c = true) →
    a.takeWhile p = a
  | [], _ => rfl
  | c :: rest, h => by
      rw [List.takeWhile_cons, if_pos (h c (by simp)), takeWhile_all (fun x hx => h x (by simp [hx]))]

theorem dropWhile_all {p : Char → Bool} : ∀ {a : Str}, (∀ c ∈ a, p c = true) →
    a.dropWhile p = []
  | [], _ => rfl
  | c :: rest, h => by
      rw [List.dropWhile_cons, if_pos (h c (by simp))]
      exact dropWhile_all (fun x hx => h x (by simp [hx]))

theorem takeWhile_append_all {p : Char → Bool} : ∀ {a : Str} (b : Str), (∀ c ∈ a, p c = true) →
    (a ++ b).takeWhile p = a ++ b.takeWhile p
  | [], b, _ => by simp
  | c :: rest, b, h => by
      rw [List.cons_append, List.takeWhile_cons, if_pos (h c (by simp)),
        takeWhile_append_all b (fun x hx => h x (by simp [hx]))]
      simp

theorem dropWhile_append_all {p : Char → Bool} : ∀ {a : Str} (b : Str), (∀ c ∈ a, p c = true) →
    (a ++ b).dropWhile p = b.dropWhile p
  | [], b, _ => by simp
  | c :: rest, b, h => by
      rw [List.cons_append, List.dropWhile_cons, if_pos (h c (by simp))]
      exact dropWhile_append_all b (fun x hx => h x (by simp [hx]))

theorem signSplit_digit_head {c : Char} {r : Str} (h : c.isDigit = true) :
    signSplit (c :: r) = (1, c :: r) := by
  rw [signSplit, if_neg (by simp [isDigit_ne_minus h]), if_neg (by simp [isDigit_ne_plus h])]

/-! ## Helper lemmas: the numeric string parsers -/

theorem toIntQ_of_digits {ds : Str} (hne : ds ≠ []) (hd : ∀ c ∈ ds, c.isDigit = true) :
    toIntQ ds = some ((digitsToNat ds : Int)) := by
  obtain ⟨c, ds', rfl⟩ := List.exists_cons_of_ne_nil hne
  have htrim : trim (c :: ds') = c :: ds' :=
    trim_eq_self (fun x hx => isDigit_isWhitespace_false (hd x hx))
  rw [toIntQ]
  simp only [htrim, signSplit_digit_head (hd c (by simp)), takeWhile_all hd, dropWhile_all hd]
  simp

theorem expParse_nil : expParse [] = some 0 := rfl

theorem parseDecLit_of_digits {ip fp : Str} (hip : ip ≠ []) (hdi : ∀ c ∈ ip, c.isDigit = true)
    (hdf : ∀ c ∈ fp, c.isDigit = true) :
    parseDecLit (ip ++ '.' :: fp) = some ⟨1, ip, fp, 0⟩ := by
  obtain ⟨c, ip', rfl⟩ := List.exists_cons_of_ne_nil hip
  have hnw : ∀ x ∈ (c :: ip') ++ '.' :: fp, x.isWhitespace = false := by
    intro x hx
    rcases List.mem_append.mp hx with h1 | h1
    · exact isDigit_isWhitespace_false (hdi x h1)
    · rcases List.mem_cons.mp h1 with h2 | h2
      · subst h2; decide
      · exact isDigit_isWhitespace_false (hdf x h2)
  have htake : ((c :: ip') ++ '.' :: fp).takeWhile Char.isDigit = c :: ip' := by
    rw [takeWhile_append_all _ hdi, List.takeWhile_cons, if_neg (by decide)]
    simp
  have hdrop : ((c :: ip') ++ '.' :: fp).dropWhile Char.isDigit = '.' :: fp := by
    rw [dropWhile_append_all _ hdi, List.dropWhile_cons, if_neg (by decide)]
  have htrim : trim ((c :: ip') ++ '.' :: fp) = (c :: ip') ++ '.' :: fp := trim_eq_self hnw
  rw [List.cons_append] at htake hdrop htrim
  rw [List.cons_append, parseDecLit]
  have hsign : signSplit (c :: (ip' ++ '.' :: fp)) = (1, c :: (ip' ++ '.' :: fp)) :=
    signSplit_digit_head (hdi c (by simp))
  simp only [htrim, hsign, htake, hdrop, List.head?_cons, List.tail_cons,
    takeWhile_all hdf, dropWhile_all hdf, expParse_nil]
  simp

theorem toDoubleQ_of_digits {ip fp : Str} (hip : ip ≠ []) (hdi : ∀ c ∈ ip, c.isDigit = true)
    (hdf : ∀ c ∈ fp, c.isDigit = true) :
    toDoubleQ (ip ++ '.' :: fp) =
      some ((digitsToNat ip : ℚ) + (digitsToNat fp : ℚ) / 10 ^ fp.length) := by
  rw [toDoubleQ, parseDecLit_of_digits hip hdi hdf]
  simp [litVal]

/-! ## The `mm:ss.mmm` rendering of a millisecond count -/

theorem formatTime_eq_renderMsec {t : ℚ} (h0 : 0 ≤ t) :
    formatTime t = renderMsec (cppRound (t * 1000)).toNat := by
  rw [formatTime, if_neg (not_lt.mpr h0), renderMsec]
  have e1 : ∀ n : Nat, n - n / 60000 * 60000 = n % 60000 := fun n => by omega
  have e2 : ∀ n : Nat, n % 60000 - n % 60000 / 1000 * 1000 = n % 1000 := fun n => by omega
  simp only [e1, e2]

theorem parseTime_renderMsec (n : Nat) : parseTime (renderMsec n) = (n : ℚ) / 1000 := by
  have hAdig : ∀ c ∈ padLeft 2 (natToStr (n / 60000)), c.isDigit = true :=
    padLeft_isDigit (natToStr_isDigit _)
  have hBdig : ∀ c ∈ padLeft 2 (natToStr (n % 60000 / 1000)), c.isDigit = true :=
    padLeft_isDigit (natToStr_isDigit _)
  have hCdig : ∀ c ∈ padLeft 3 (natToStr (n % 1000)), c.isDigit = true :=
    padLeft_isDigit (natToStr_isDigit _)
  have hAne : padLeft 2 (natToStr (n / 60000)) ≠ [] := padLeft_ne_nil (natToStr_ne_nil _)
  have hBne : padLeft 2 (natToStr (n % 60000 / 1000)) ≠ [] := padLeft_ne_nil (natToStr_ne_nil _)
  have hnw : ∀ c ∈ renderMsec n, c.isWhitespace = false := by
    intro c hc
    rw [renderMsec] at hc
    rcases List.mem_append.mp hc with h1 | h1
    · exact isDigit_isWhitespace_false (hAdig c h1)
    · rcases List.mem_cons.mp h1 with h2 | h2
      · subst h2; decide
      · rcases List.mem_append.mp h2 with h3 | h3
        · exact isDigit_isWhitespace_false (hBdig c h3)
        · rcases List.mem_cons.mp h3 with h4 | h4
          · subst h4; decide
          · exact isDigit_isWhitespace_false (hCdig c h4)
  have hsplit : splitChar ':' (renderMsec n) =
      [padLeft 2 (natToStr (n / 60000)),
        padLeft 2 (natToStr (n % 60000 / 1000)) ++ '.' :: padLeft 3 (natToStr (n % 1000))] := by
    rw [renderMsec]
    refine splitChar_pair (fun hm => ?_) (fun hm => ?_)
    · exact isDigit_ne_colon (hAdig _ hm) rfl
    · rcases List.mem_append.mp hm with h1 | h1
      · exact isDigit_ne_colon (hBdig _ h1) rfl
      · rcases List.mem_cons.mp h1 with h2 | h2
        · exact absurd h2.symm (by decide)
        · exact isDigit_ne_colon (hCdig _ h2) rfl
  have hne : renderMsec n ≠ [] := by
    rw [renderMsec]
    intro hcon
    exact hAne (List.append_eq_nil.mp hcon).1
  have hClen : (padLeft 3 (natToStr (n % 1000))).length = 3 :=
    length_padLeft_of_le (natToStr_length_le (by omega) (by omega))
  have hM : toIntQ (padLeft 2 (natToStr (n / 60000))) = some ((n / 60000 : Nat) : Int) := by
    rw [toIntQ_of_digits hAne hAdig, digitsToNat_padLeft, natToStr_val]
  have hS : toDoubleQ (padLeft 2 (natToStr (n % 60000 / 1000)) ++ '.' ::
      padLeft 3 (natToStr (n % 1000))) =
      some (((n % 60000 / 1000 : Nat) : ℚ) + ((n % 1000 : Nat) : ℚ) / 1000) := by
    rw [toDoubleQ_of_digits hBne hBdig hCdig, digitsToNat_padLeft, digitsToNat_padLeft,
      natToStr_val, natToStr_val, hClen]
    norm_num
  have hn2 : n / 60000 * 60000 + n % 60000 / 1000 * 1000 + n % 1000 = n := by omega
  have key : ((n / 60000 : Nat) : ℚ) * 60000 + ((n % 60000 / 1000 : Nat) : ℚ) * 1000 +
      ((n % 1000 : Nat) : ℚ) = (n : ℚ) := by exact_mod_cast hn2
  rw [parseTime, trim_eq_self hnw]
  rw [if_neg (by simp [List.isEmpty_iff, hne])]
  simp only [hsplit, hM, hS, Int.cast_natCast]
  linear_combination (1/1000 : ℚ) * key

/-! ## Concrete evaluations shared by several claims -/

theorem parseTime_val_neg_seconds : parseTime "2:-30".toList = 90 := by
  rw [parseTime, show trim "2:-30".toList = "2:-30".toList from by decide,
    show splitChar ':' "2:-30".toList = ["2".toList, "-30".toList] from by decide]
  norm_num [show ("2:-30".toList.isEmpty) = false from by decide,
    show toIntQ ['2'] = some 2 from by decide, toDoubleQ,
    show parseDecLit ['-', '3', '0'] = some ⟨-1, ['3', '0'], [], 0⟩ from by decide,
    litVal, show digitsToNat ['3', '0'] = 30 from by decide,
    show digitsToNat [] = 0 from by decide]

theorem toDoubleQ_val_neg30 : toDoubleQ "-30".toList = some (-30) := by
  rw [toDoubleQ, show parseDecLit "-30".toList = some ⟨-1, ['3', '0'], [], 0⟩ from by decide]
  norm_num [litVal, show digitsToNat ['3', '0'] = 30 from by decide,
    show digitsToNat [] = 0 from by decide]

theorem parseTime_val_xx : parseTime "xx".toList = -1 := by
  rw [parseTime, show trim "xx".toList = "xx".toList from by decide,
    show splitChar ':' "xx".toList = [['x', 'x']] from by decide]
  norm_num [show ("xx".toList.isEmpty) = false from by decide]

theorem parseTime_val_editor5 : parseTime "0:05.000".toList = 5 := by
  rw [parseTime, show trim "0:05.000".toList = "0:05.000".toList from by decide,
    show splitChar ':' "0:05.000".toList = [['0'], "05.000".toList] from by decide]
  norm_num [show ("0:05.000".toList.isEmpty) = false from by decide,
    show toIntQ ['0'] = some 0 from by decide, toDoubleQ,
    show parseDecLit ['0', '5', '.', '0', '0', '0'] = some ⟨1, ['0', '5'], ['0', '0', '0'], 0⟩
      from by decide,
    litVal, show digitsToNat ['0', '5'] = 5 from by decide,
    show digitsToNat ['0', '0', '0'] = 0 from by decide]

/-! ## Claim C4: the time-codec round trip -/

/-- C4: for every time value `t` in `[0, 359999.999]` seconds,
`parseTime (formatTime t)` equals `t` rounded to the nearest millisecond;
in particular, when `t` is a whole number of milliseconds the round trip
returns `t` exactly. -/
theorem parseTime_formatTime_roundtrip (t : ℚ) (h0 : 0 ≤ t) (_h1 : t ≤ 359999999/1000) :
    parseTime (formatTime t) = roundToMs t ∧
    (∀ n : ℕ, t = (n : ℚ) / 1000 → parseTime (formatTime t) = t) := by
  have hnneg : ¬ t * 1000 < 0 := not_lt.mpr (mul_nonneg h0 (by norm_num))
  have hr : cppRound (t * 1000) = ⌊t * 1000 + 1/2⌋ := by rw [cppRound, if_neg hnneg]
  have hge : 0 ≤ cppRound (t * 1000) := by
    rw [hr]
    exact Int.floor_nonneg.mpr (by nlinarith)
  have hcast : (((cppRound (t * 1000)).toNat : ℚ)) = ((cppRound (t * 1000) : ℤ) : ℚ) := by
    exact_mod_cast congrArg (fun z : ℤ => (z : ℚ)) (Int.toNat_of_nonneg hge)
  have hmain : parseTime (formatTime t) = roundToMs t := by
    rw [formatTime_eq_renderMsec h0, parseTime_renderMsec, roundToMs, hcast]
  refine ⟨hmain, fun n hn => ?_⟩
  have hcpp : cppRound ((n : ℚ)) = (n : ℤ) := by
    rw [cppRound, if_neg (not_lt.mpr (Nat.cast_nonneg n)),
      show ((n : ℚ) + 1/2) = (1/2 + ((n : ℤ) : ℚ)) from by push_cast; ring,
      Int.floor_add_int]
    norm_num
  rw [hmain, roundToMs, hn, div_mul_cancel₀ _ (by norm_num : (1000 : ℚ) ≠ 0), hcpp]
  push_cast
  ring

/-- C4 witness: the round trip evaluated at `t = 3.5` seconds. -/
theorem parseTime_formatTime_roundtrip_witness :
    (0 : ℚ) ≤ 7/2 ∧ (7/2 : ℚ) ≤ 359999999/1000 ∧ parseTime (formatTime (7/2)) = 7/2 :=
  ⟨by norm_num, by norm_num,
    (parseTime_formatTime_roundtrip (7/2) (by norm_num) (by norm_num)).2 3500 (by norm_num)⟩

/-! ## Claim C7: parseTime failure behaviour -/

/-- C7 counterexample: `parseTime "2:-30"` returns the defined value `90`
although the second part parses as the negative float `-30`, so a defined
result does not require a non-negative second part. -/
theorem parseTime_defined_despite_negative_part :
    parseTime "2:-30".toList = 90 ∧ (0 : ℚ) ≤ 90 ∧
    toDoubleQ "-30".toList = some (-30) ∧ ((-30 : ℚ) < 0) :=
  ⟨parseTime_val_neg_seconds, by norm_num, toDoubleQ_val_neg30, by norm_num⟩

/-- C7 amended: a defined (non-negative) `parseTime` result still requires
exactly one `:` with both parts parsing numerically, but the parts may be
negative as long as `minutes*60 + seconds` is non-negative; every
shape failure yields the sentinel `-1`, and the Begin/End editor handler
leaves the sentence unchanged whenever the parse result is negative. -/
theorem parseTime_shape_and_caller (s : Str) (sent : Sentence) (isBegin : Bool) :
    (0 ≤ parseTime s → ∃ a b m f, splitChar ':' (trim s) = [a, b] ∧
      toIntQ a = some m ∧ toDoubleQ b = some f ∧ parseTime s = (m : ℚ) * 60 + f) ∧
    (parseTime s < 0 → setTimeFromEditor isBegin s sent = sent) := by
  constructor
  · intro h
    by_cases he : (trim s).isEmpty = true
    · have hval : parseTime s = -1 := by rw [parseTime, if_pos he]
      rw [hval] at h; norm_num at h
    · match hsp : splitChar ':' (trim s) with
      | [] =>
          have hval : parseTime s = -1 := by rw [parseTime, if_neg he]; simp only [hsp]
          rw [hval] at h; norm_num at h
      | [a] =>
          have hval : parseTime s = -1 := by rw [parseTime, if_neg he]; simp only [hsp]
          rw [hval] at h; norm_num at h
      | a :: b :: c :: rest =>
          have hval : parseTime s = -1 := by rw [parseTime, if_neg he]; simp only [hsp]
          rw [hval] at h; norm_num at h
      | [a, b] =>
          match hm : toIntQ a, hf : toDoubleQ b with
          | none, none =>
              have hval : parseTime s = -1 := by
                rw [parseTime, if_neg he]; simp only [hsp, hm, hf]
              rw [hval] at h; norm_num at h
          | none, some f =>
              have hval : parseTime s = -1 := by
                rw [parseTime, if_neg he]; simp only [hsp, hm, hf]
              rw [hval] at h; norm_num at h
          | some m, none =>
              have hval : parseTime s = -1 := by
                rw [parseTime, if_neg he]; simp only [hsp, hm, hf]
              rw [hval] at h; norm_num at h
          | some m, some f =>
              refine ⟨a, b, m, f, rfl, hm, hf, ?_⟩
              rw [parseTime, if_neg he]
              simp only [hsp, hm, hf]
  · intro h
    rw [setTimeFromEditor]
    show (if parseTime s < 0 then sent else applyTime isBegin (parseTime s) sent) = sent
    rw [if_pos h]

/-- C7 witness: the amended claim at the inputs `"2:-30"` (defined result,
negative second part) and `"xx"` (shape failure, sentence untouched). -/
theorem parseTime_shape_and_caller_witness :
    (∃ a b m f, splitChar ':' (trim "2:-30".toList) = [a, b] ∧ toIntQ a = some m ∧
      toDoubleQ b = some f ∧ parseTime "2:-30".toList = (m : ℚ) * 60 + f) ∧
    setTimeFromEditor true "xx".toList { id := 1 } = { id := 1 } :=
  ⟨(parseTime_shape_and_caller "2:-30".toList { id := 1 } true).1
      (by rw [parseTime_val_neg_seconds]; norm_num),
    (parseTime_shape_and_caller "xx".toList { id := 1 } true).2
      (by rw [parseTime_val_xx]; norm_num)⟩

/-! ## Claim C10: the ±10 ms fine-tune clamps at zero -/

/-- C10: `adjustTime` never stores a negative time into the targeted
bound, and on an untimed (negative) bound the stored value is exactly
`max 0 delta` — the sentinel is replaced by `0.0` before the delta is
applied and the result is clamped at `0.0`, so the down arrow yields
exactly `0.0` and the up arrow `0.01`. -/
theorem adjustTime_clamps_at_zero (isBegin : Bool) (delta : ℚ) (s : Sentence) :
    0 ≤ timeField isBegin (adjustTime isBegin delta s) ∧
    (timeField isBegin s < 0 →
      timeField isBegin (adjustTime isBegin delta s) = max 0 delta) := by
  have key : timeField isBegin (adjustTime isBegin delta s) =
      if (if timeField isBegin s < 0 then 0 else timeField isBegin s) + delta < 0 then 0
      else (if timeField isBegin s < 0 then 0 else timeField isBegin s) + delta := by
    cases isBegin <;> simp [timeField, adjustTime]
  rw [key]
  constructor
  · split_ifs with h1 h2 h3 <;> linarith
  · intro hneg
    simp only [if_pos hneg]
    by_cases hd : delta < 0
    · rw [if_pos (by linarith), max_eq_left (by linarith)]
    · rw [if_neg (by linarith), max_eq_right (by linarith)]
      ring

/-- C10 witness: a down-arrow press on an untimed Begin stores exactly
`0.0`. -/
theorem adjustTime_clamps_at_zero_witness :
    timeField true (adjustTime true (-(1/100)) { id := 1 }) = max 0 (-(1/100)) :=
  (adjustTime_clamps_at_zero true (-(1/100)) { id := 1 }).2 (by rw [timeField]; norm_num)

/-! ## Shared evaluation of the Begin editor write `0:05.000` -/

theorem setTimeFromEditor_val (c : Bool) :
    setTimeFromEditor true "0:05.000".toList
        { id := 1, begin := 1, end_ := 2, text := [], confirm := c } =
      { id := 1, begin := 5, end_ := 2, text := [], confirm := false } := by
  have habs : |(1 : ℚ) - 5| > EPS := by
    rw [show (1 : ℚ) - 5 = -4 from by norm_num, abs_neg,
      abs_of_nonneg (by norm_num : (0 : ℚ) ≤ 4), EPS]
    norm_num
  rw [setTimeFromEditor]
  show (if parseTime "0:05.000".toList < 0 then _
    else applyTime true (parseTime "0:05.000".toList) _) = _
  rw [parseTime_val_editor5, if_neg (by norm_num), applyTime]
  simp only [if_true]
  rw [if_pos habs]
  cases c <;> rfl

/-! ## Claim C1: no begin-before-end validation exists -/

/-- C1 counterexample: typing `0:05.000` into the Begin editor of a
sentence timed `[1, 2]` stores `begin = 5` with `end = 2` — both defined
with `begin ≥ end` — instead of rejecting the write and leaving the
sentence unchanged. -/
theorem editor_write_stores_inverted_range :
    setTimeFromEditor true "0:05.000".toList
        { id := 1, begin := 1, end_ := 2, text := [], confirm := false } =
      { id := 1, begin := 5, end_ := 2, text := [], confirm := false } ∧
    (0 : ℚ) ≤ 5 ∧ (0 : ℚ) ≤ 2 ∧ ¬ ((5 : ℚ) < 2) ∧
    setTimeFromEditor true "0:05.000".toList
        { id := 1, begin := 1, end_ := 2, text := [], confirm := false } ≠
      { id := 1, begin := 1, end_ := 2, text := [], confirm := false } := by
  refine ⟨setTimeFromEditor_val false, by norm_num, by norm_num, by norm_num, ?_⟩
  rw [setTimeFromEditor_val false]
  intro hcon
  have := congrArg Sentence.begin hcon
  norm_num at this

/-- C1 amended: the timing editors validate only that the parsed time is
non-negative; a parse failure (negative result) leaves the sentence
unchanged, and otherwise the parsed value is stored into the targeted
bound (when it differs from the old value by more than `1e-4`) without
any comparison against the other bound, so states with both bounds
defined and `begin ≥ end` are storable. -/
theorem timeField_true (s : Sentence) : timeField true s = s.begin := rfl

theorem timeField_false (s : Sentence) : timeField false s = s.end_ := rfl

theorem applyTime_true (t : ℚ) (s : Sentence) :
    applyTime true t s =
      if EPS < |s.begin - t| then
        { s with begin := t, confirm := if s.confirm then false else s.confirm }
      else s := rfl

theorem applyTime_false (t : ℚ) (s : Sentence) :
    applyTime false t s =
      if EPS < |s.end_ - t| then
        { s with end_ := t, confirm := if s.confirm then false else s.confirm }
      else s := rfl

theorem editor_write_unvalidated (isBegin : Bool) (txt : Str) (s : Sentence) :
    (parseTime txt < 0 → setTimeFromEditor isBegin txt s = s) ∧
    (0 ≤ parseTime txt →
      timeField isBegin (setTimeFromEditor isBegin txt s) =
        (if EPS < |timeField isBegin s - parseTime txt| then parseTime txt
          else timeField isBegin s) ∧
      timeField (!isBegin) (setTimeFromEditor isBegin txt s) = timeField (!isBegin) s) := by
  constructor
  · intro h
    rw [setTimeFromEditor]
    show (if parseTime txt < 0 then s else applyTime isBegin (parseTime txt) s) = s
    rw [if_pos h]
  · intro h
    have hred : setTimeFromEditor isBegin txt s = applyTime isBegin (parseTime txt) s := by
      rw [setTimeFromEditor]
      show (if parseTime txt < 0 then s else applyTime isBegin (parseTime txt) s) = _
      rw [if_neg (not_lt.mpr h)]
    rw [hred]
    cases isBegin with
    | true =>
        constructor
        · rw [timeField_true, timeField_true, applyTime_true]
          split_ifs <;> rfl
        · rw [Bool.not_true, timeField_false, timeField_false, applyTime_true]
          split_ifs <;> rfl
    | false =>
        constructor
        · rw [timeField_false, timeField_false, applyTime_false]
          split_ifs <;> rfl
        · rw [Bool.not_false, timeField_true, timeField_true, applyTime_false]
          split_ifs <;> rfl

/-- C1 witness: the amended claim at the concrete editor writes
`0:05.000` (accepted, stored unvalidated) and `xx` (rejected, state
kept). -/
theorem editor_write_unvalidated_witness :
    setTimeFromEditor true "xx".toList { id := 1 } = { id := 1 } ∧
    timeField true (setTimeFromEditor true "0:05.000".toList
        { id := 1, begin := 1, end_ := 2 }) =
      (if EPS < |timeField true ({ id := 1, begin := 1, end_ := 2 } : Sentence) -
          parseTime "0:05.000".toList|
        then parseTime "0:05.000".toList
        else timeField true ({ id := 1, begin := 1, end_ := 2 } : Sentence)) :=
  ⟨(editor_write_unvalidated true "xx".toList { id := 1 }).1
      (by rw [parseTime_val_xx]; norm_num),
    ((editor_write_unvalidated true "0:05.000".toList
        { id := 1, begin := 1, end_ := 2 }).2
      (by rw [parseTime_val_editor5]; norm_num)).1⟩

/-! ## Claim C2: confirm-clearing on timing changes -/

theorem applyTime_confirm_clear (isBegin : Bool) (t : ℚ) (s : Sentence)
    (h : (applyTime isBegin t s).begin ≠ s.begin ∨ (applyTime isBegin t s).end_ ≠ s.end_) :
    (applyTime isBegin t s).confirm = false := by
  cases isBegin with
  | false =>
      by_cases hc : |s.end_ - t| > EPS
      · simp only [applyTime, Bool.false_eq_true, if_false, if_pos hc]
        cases s.confirm <;> rfl
      · simp [applyTime, hc] at h
  | true =>
      by_cases hc : |s.begin - t| > EPS
      · simp only [applyTime, if_true]
        rw [if_pos hc]
        cases s.confirm <;> rfl
      · simp [applyTime, hc] at h

/-- C2 counterexample: the auto-timing estimator changes `begin` and `end`
of a sentence whose `confirmed` flag is `true` and leaves the flag set —
an operation that changes timing without clearing `confirmed`. -/
theorem autoAssign_keeps_confirm_on_timing_change :
    autoAssignTimesIfEmpty 10
        [{ id := 1, begin := -1, end_ := -1, text := ['h', 'i'], confirm := true }] =
      [{ id := 1, begin := 0, end_ := 10, text := ['h', 'i'], confirm := true }] := by
  rw [autoAssignTimesIfEmpty, if_neg (by norm_num), if_neg (by simp), if_neg (by
    rintro ⟨s, hs, h0, hlt⟩
    simp only [List.mem_singleton] at hs
    subst hs
    norm_num at h0)]
  norm_num [List.zip, List.zipWith, assignLoop, Sentence.mk.injEq,
    show countWords ['h', 'i'] = 1 from by decide]

/-- C2 amended: the three interactive timing operations (editor write,
playhead write, ±10 ms adjust) clear `confirmed` whenever they change
`begin` or `end`, and a content-cell text edit never touches `confirmed`;
the auto-timing estimator, however, assigns timing without clearing the
flag. -/
theorem interactive_timing_ops_clear_confirm (s : Sentence) (isBegin : Bool) (txt : Str)
    (posMs : Int) (delta : ℚ) :
    ((setTimeFromEditor isBegin txt s).begin ≠ s.begin ∨
      (setTimeFromEditor isBegin txt s).end_ ≠ s.end_ →
      (setTimeFromEditor isBegin txt s).confirm = false) ∧
    ((setTimeFromPlayHead isBegin posMs s).begin ≠ s.begin ∨
      (setTimeFromPlayHead isBegin posMs s).end_ ≠ s.end_ →
      (setTimeFromPlayHead isBegin posMs s).confirm = false) ∧
    (adjustTime isBegin delta s).confirm = false ∧
    (itemChangedText txt s).confirm = s.confirm := by
  refine ⟨?_, ?_, ?_, rfl⟩
  · by_cases ht : parseTime txt < 0
    · intro h
      have hid : setTimeFromEditor isBegin txt s = s := by
        rw [setTimeFromEditor]
        show (if parseTime txt < 0 then s else applyTime isBegin (parseTime txt) s) = s
        rw [if_pos ht]
      rw [hid] at h
      simp at h
    · intro h
      have hred : setTimeFromEditor isBegin txt s = applyTime isBegin (parseTime txt) s := by
        rw [setTimeFromEditor]
        show (if parseTime txt < 0 then s else applyTime isBegin (parseTime txt) s) = _
        rw [if_neg ht]
      rw [hred] at h ⊢
      exact applyTime_confirm_clear isBegin (parseTime txt) s h
  · intro h
    exact applyTime_confirm_clear isBegin ((posMs : ℚ) / 1000) s h
  · cases isBegin <;> rw [adjustTime] <;> simp

/-- C2 witness: a Begin-editor write that changes timing on a confirmed
sentence clears the flag, while a text edit keeps it `true`. -/
theorem interactive_timing_ops_clear_confirm_witness :
    (setTimeFromEditor true "0:05.000".toList
        { id := 1, begin := 1, end_ := 2, text := [], confirm := true }).confirm = false ∧
    (itemChangedText ['x']
        { id := 1, begin := 1, end_ := 2, text := [], confirm := true }).confirm = true :=
  ⟨(interactive_timing_ops_clear_confirm
        { id := 1, begin := 1, end_ := 2, text := [], confirm := true } true
        "0:05.000".toList 0 0).1
      (Or.inl (by rw [setTimeFromEditor_val true]; norm_num)),
    ((interactive_timing_ops_clear_confirm
        { id := 1, begin := 1, end_ := 2, text := [], confirm := true } true ['x'] 0 0).2.2.2).trans
      rfl⟩

/-! ## Claim C8: the persisted JSON schema -/

/-- C8 counterexample: the saved document's sentence objects carry only
`id`, `begin`, `end`, `text`, `confirmed` — no practice fields — and the
document has no `dictionary` key at all. -/
theorem saveLessonJson_omits_schema_fields :
    jsonKeys (sentenceToJson { id := 1 }) = ["id", "begin", "end", "text", "confirmed"] ∧
    "practice_text" ∉ jsonKeys (sentenceToJson { id := 1 }) ∧
    "highlight_words" ∉ jsonKeys (sentenceToJson { id := 1 }) ∧
    "dictionary" ∉ jsonKeys (saveLessonJson [] [] [{ id := 1 }] 1 0) := by
  refine ⟨rfl, ?_, ?_, ?_⟩ <;> simp [sentenceToJson, saveLessonJson, jsonKeys]

/-- C8 amended: the persisted document carries exactly the top-level keys
`audio_path`, `text_path`, `play_speed`, `last_selected_sentence` and
`sentences`, and every sentence object exactly the keys `id`, `begin`,
`end`, `text`, `confirmed`; the practice fields and the dictionary of the
spec's schema are not written. -/
theorem saveLessonJson_schema (audioPath textPath : Str) (sentences : List Sentence)
    (playSpeed : ℚ) (lastSentence : Int) :
    jsonKeys (saveLessonJson audioPath textPath sentences playSpeed lastSentence) =
      ["audio_path", "text_path", "play_speed", "last_selected_sentence", "sentences"] ∧
    ∀ s ∈ sentences, jsonKeys (sentenceToJson s) = ["id", "begin", "end", "text", "confirmed"] :=
  ⟨rfl, fun _ _ => rfl⟩

/-- C8 witness: the schema equations on a concrete one-sentence lesson. -/
theorem saveLessonJson_schema_witness :
    jsonKeys (saveLessonJson [] [] [{ id := 1 }] 1 0) =
      ["audio_path", "text_path", "play_speed", "last_selected_sentence", "sentences"] ∧
    jsonKeys (sentenceToJson { id := 1 }) = ["id", "begin", "end", "text", "confirmed"] :=
  ⟨(saveLessonJson_schema [] [] [{ id := 1 }] 1 0).1,
    (saveLessonJson_schema [] [] [{ id := 1 }] 1 0).2 { id := 1 } (by simp)⟩

/-! ## Claim C9: hide/show toggling and the practice text -/

/-- C9 counterexample: after editing the displayed content cell in hide
mode, toggling show → hide does not reproduce the edited cell — hide
always rewrites the cell to the fixed underscore mask. -/
theorem hideShow_discards_cell_edits :
    (handleHideShowClicked 2 (handleHideShowClicked 3
        { text := "I fixed it".toList, contentCell := "fix ____".toList,
          hideChecked := true, showChecked := false })).contentCell ≠
      "fix ____".toList := by decide

/-- C9 amended: hide/show toggling never mutates the sentence's stored
text, but there is no per-word practice buffer: entering hide mode always
displays the constant underscore mask, so a hide → show → hide cycle ends
with the mask regardless of any edits to the displayed cell. -/
theorem hideShow_keeps_text_masks_cell (r : PracticeRow) (col : Nat) :
    (handleHideShowClicked col r).text = r.text ∧
    (handleHideShowClicked 2 (handleHideShowClicked 3 r)).contentCell = maskStr := by
  constructor
  · rw [handleHideShowClicked]
    split_ifs <;> rfl
  · rfl

/-! ## Claim C6: the 20–60–20 auto-zoom -/

/-- C6 counterexample: with duration 10 and segment `[9, 12]` (end past
the duration), the resulting window has length `5/3` — computed from the
clamped segment end `min duration end` — not the claimed
`min(duration, max(minSegLen, end-begin)/0.6) = 5`. -/
theorem autoZoom_clamps_end_before_sizing :
    autoZoomToSegment { duration := 10, viewStart := 0, viewEnd := 10, hasView := false } 9 12 =
      { duration := 10, viewStart := 25/3, viewEnd := 10, hasView := true } ∧
    ¬ ((10 : ℚ) - 25/3 = min (10 : ℚ) (max (1/20) (12 - 9) / (3/5))) := by
  constructor
  · rw [autoZoomToSegment, if_neg (by norm_num)]
    norm_num [max_def, min_def, ViewState.mk.injEq]
  · norm_num [max_def, min_def]

/-- C6 amended: for a valid segment (`duration > 0`, `begin ≥ 0`,
`end > begin`) the window is built around the clamped segment
`[begin, min duration end]`: with `segLen = max 0.05 (min duration end - begin)`,
`viewLen = min (segLen/0.6) duration` and `margin = (viewLen - segLen)/2`,
the window is `[begin - margin, min duration end + margin]` when that is
inside `[0, duration]`, shifts right to start at 0 when the padded start
is negative, shifts left to end at `duration` when the padded end exceeds
it, always has length `(min duration end - begin) + 2*margin`, and never
leaves `[0, duration]`; for an invalid segment the widget falls back to
`fitAll`. -/
theorem autoZoom_spec (v : ViewState) (b e : ℚ) (hd : 0 < v.duration) (hb : 0 ≤ b)
    (he : b < e) :
    ∀ segEnd segLen viewLen margin : ℚ,
      segEnd = min v.duration e →
      segLen = max (1/20) (segEnd - b) →
      viewLen = min (segLen / (3/5)) v.duration →
      margin = (viewLen - segLen) / 2 →
      (0 ≤ (autoZoomToSegment v b e).viewStart ∧
       (autoZoomToSegment v b e).viewEnd ≤ v.duration ∧
       (autoZoomToSegment v b e).viewEnd - (autoZoomToSegment v b e).viewStart =
         (segEnd - b) + 2 * margin ∧
       (0 ≤ b - margin ∧ segEnd + margin ≤ v.duration →
         (autoZoomToSegment v b e).viewStart = b - margin ∧
         (autoZoomToSegment v b e).viewEnd = segEnd + margin) ∧
       (b - margin < 0 → (autoZoomToSegment v b e).viewStart = 0) ∧
       (0 ≤ b - margin ∧ v.duration < segEnd + margin →
         (autoZoomToSegment v b e).viewEnd = v.duration) ∧
       (∀ (w : ViewState) (b' e' : ℚ), w.duration ≤ 0 ∨ b' < 0 ∨ e' ≤ b' →
         autoZoomToSegment w b' e' = fitAll w)) := by
  intro segEnd segLen viewLen margin h1 h2 h3 h4
  have hmax : max 0 b = b := max_eq_right hb
  have hr : autoZoomToSegment v b e =
      { v with
        viewStart :=
          if b - margin < 0 then
            (if segEnd + margin - (b - margin) > v.duration then
              (if 0 - (segEnd + margin - (b - margin) - v.duration) < 0 then 0
                else 0 - (segEnd + margin - (b - margin) - v.duration))
              else 0)
          else
            if segEnd + margin > v.duration then
              (if (b - margin) - (segEnd + margin - v.duration) < 0 then 0
                else (b - margin) - (segEnd + margin - v.duration))
            else b - margin,
        viewEnd :=
          if b - margin < 0 then
            (if segEnd + margin - (b - margin) > v.duration then v.duration
              else segEnd + margin - (b - margin))
          else if segEnd + margin > v.duration then v.duration else segEnd + margin,
        hasView := true } := by
    rw [autoZoomToSegment, if_neg (by push_neg; exact ⟨hd, hb, he⟩)]
    simp only [← h1, ← h2, ← h3, ← h4, hmax]
    by_cases hA : b - margin < 0
    · simp only [if_pos hA]
    · simp only [if_neg hA]
  have hseg_le : segEnd - b ≤ segLen := h2 ▸ le_max_right _ _
  have hview_le : viewLen ≤ v.duration := h3 ▸ min_le_right _ _
  have hlen : segEnd - b + 2 * margin ≤ v.duration := by rw [h4]; linarith
  rw [hr]
  refine ⟨?_, ?_, ?_, ?_, ?_, ?_, ?_⟩
  · simp only
    split_ifs <;> linarith
  · simp only
    split_ifs <;> linarith
  · simp only
    split_ifs <;> linarith
  · rintro ⟨hi1, hi2⟩
    constructor <;> (simp only; split_ifs <;> linarith)
  · intro hA
    simp only
    split_ifs <;> linarith
  · rintro ⟨hi1, hi2⟩
    simp only
    split_ifs <;> linarith
  · intro w b' e' hcond
    rw [autoZoomToSegment, if_pos hcond]

/-! ## Claim C3: the auto-timing estimator -/

theorem assignLoop_length (d : ℚ) (W : Nat) : ∀ (l : List (Sentence × Nat)) (t : ℚ),
    (assignLoop d W t l).length = l.length
  | [], _ => rfl
  | (s, w) :: rest, t => by
      rw [assignLoop]
      simp [assignLoop_length d W rest]

theorem assignLoop_head (d : ℚ) (W : Nat) : ∀ (l : List (Sentence × Nat)) (t : ℚ), l ≠ [] →
    (assignLoop d W t l).head?.map Sentence.begin = some t
  | [], _, h => absurd rfl h
  | (_, _) :: _, _, _ => rfl

theorem assignLoop_chain (d : ℚ) (W : Nat) : ∀ (l : List (Sentence × Nat)) (t : ℚ),
    List.Chain' (fun a b => b.begin = a.end_) (assignLoop d W t l)
  | [], _ => List.chain'_nil
  | (s, w) :: rest, t => by
      rw [assignLoop]
      refine List.chain'_cons'.mpr ⟨?_, assignLoop_chain d W rest _⟩
      intro y hy
      cases rest with
      | nil => simp [assignLoop] at hy
      | cons q rest2 =>
          obtain ⟨qs, qw⟩ := q
          rw [assignLoop] at hy
          simp only [List.head?_cons, Option.mem_def, Option.some.injEq] at hy
          subst hy
          rfl

theorem assignLoop_last (d : ℚ) (W : Nat) : ∀ (l : List (Sentence × Nat)) (t : ℚ), l ≠ [] →
    (assignLoop d W t l).getLast?.map Sentence.end_ =
      some (t + d * (((l.map Prod.snd).sum : ℚ)) / (W : ℚ))
  | [], _, h => absurd rfl h
  | [(s, w)], t, _ => by
      rw [assignLoop, assignLoop]
      simp only [List.getLast?_singleton, Option.map, List.map_cons, List.map_nil,
        List.sum_cons, List.sum_nil, Option.some.injEq]
      rw [mul_div_assoc]
      push_cast
      ring
  | (s, w) :: (qs, qw) :: rest2, t, _ => by
      have hrec := assignLoop_last d W ((qs, qw) :: rest2)
        (t + d * ((w : ℚ) / (W : ℚ))) (by simp)
      rw [assignLoop] at hrec
      rw [assignLoop, assignLoop]
      rw [List.getLast?_cons_cons, hrec]
      simp only [Option.some.injEq, List.map_cons, List.sum_cons]
      by_cases hW : (W : ℚ) = 0
      · simp [hW]
      · field_simp
        ring

theorem assignLoop_spans (d : ℚ) (W : Nat) : ∀ (l : List (Sentence × Nat)) (t : ℚ),
    ∀ p ∈ (assignLoop d W t l).zip (l.map Prod.snd),
      p.1.end_ - p.1.begin = d * (p.2 : ℚ) / (W : ℚ)
  | [], _, p, hp => by simp [assignLoop] at hp
  | (s, w) :: rest, t, p, hp => by
      rw [assignLoop, List.map_cons, List.zip_cons_cons] at hp
      rcases List.mem_cons.mp hp with h1 | h1
      · subst h1
        simp only
        rw [mul_div_assoc]
        ring
      · exact assignLoop_spans d W rest _ p h1

theorem sum_pos_of_all_pos : ∀ (l : List Nat), (∀ x ∈ l, 1 ≤ x) → l ≠ [] → 1 ≤ l.sum
  | [], _, h => absurd rfl h
  | x :: rest, h, _ => by
      have := h x (by simp)
      simp only [List.sum_cons]
      omega

/-- C3 counterexample: a sentence with `begin = 5` already set (but no
`end`) does not stop the estimator — it runs and overwrites the timing,
although the claim requires every sentence to have both bounds undefined
for the estimator to run. -/
theorem autoAssign_runs_on_partially_timed :
    autoAssignTimesIfEmpty 10 [{ id := 1, begin := 5, end_ := -1, text := ['h', 'i'] }] =
      [{ id := 1, begin := 0, end_ := 10, text := ['h', 'i'] }] ∧
    (0 : ℚ) ≤ ({ id := 1, begin := 5, end_ := -1, text := ['h', 'i'] } : Sentence).begin ∧
    autoAssignTimesIfEmpty 10 [{ id := 1, begin := 5, end_ := -1, text := ['h', 'i'] }] ≠
      [{ id := 1, begin := 5, end_ := -1, text := ['h', 'i'] }] := by
  have hmain : autoAssignTimesIfEmpty 10
      [{ id := 1, begin := 5, end_ := -1, text := ['h', 'i'] }] =
      [{ id := 1, begin := 0, end_ := 10, text := ['h', 'i'] }] := by
    rw [autoAssignTimesIfEmpty, if_neg (by norm_num), if_neg (by simp), if_neg (by
      rintro ⟨s, hs, h0, hlt⟩
      simp only [List.mem_singleton] at hs
      subst hs
      norm_num at hlt)]
    norm_num [List.zip, List.zipWith, assignLoop, Sentence.mk.injEq,
      show countWords ['h', 'i'] = 1 from by decide]
  refine ⟨hmain, by norm_num, ?_⟩
  rw [hmain]
  intro hcon
  simp only [List.cons.injEq, Sentence.mk.injEq] at hcon
  norm_num at hcon

/-- C3 amended: the estimator runs exactly when the duration is positive,
the sentence list non-empty, and no sentence has a valid range
(`begin ≥ 0` and `end > begin`) — a partially-timed sentence does not stop
it; when it runs it walks the sentences in order weighting each by its
word count (minimum 1): the first `begin` is 0, every subsequent `begin`
equals the previous `end`, each span is `duration * weight / totalWeight`,
and the last `end` is exactly the duration. -/
theorem autoAssign_spec (duration : ℚ) (ss : List Sentence) :
    ((duration ≤ 0 ∨ ss = [] ∨ ∃ s ∈ ss, 0 ≤ s.begin ∧ s.begin < s.end_) →
      autoAssignTimesIfEmpty duration ss = ss) ∧
    (0 < duration → ss ≠ [] → (∀ s ∈ ss, ¬(0 ≤ s.begin ∧ s.begin < s.end_)) →
      ((autoAssignTimesIfEmpty duration ss).length = ss.length ∧
       (autoAssignTimesIfEmpty duration ss).head?.map Sentence.begin = some 0 ∧
       List.Chain' (fun a b => b.begin = a.end_) (autoAssignTimesIfEmpty duration ss) ∧
       (autoAssignTimesIfEmpty duration ss).getLast?.map Sentence.end_ = some duration ∧
       ∀ p ∈ (autoAssignTimesIfEmpty duration ss).zip
           (ss.map fun s => let c := countWords s.text; if c ≤ 0 then 1 else c),
         p.1.end_ - p.1.begin =
           duration * (p.2 : ℚ) /
             (((ss.map fun s => let c := countWords s.text; if c ≤ 0 then 1 else c).sum : ℚ)))) := by
  constructor
  · intro h
    rcases h with h | h | h
    · rw [autoAssignTimesIfEmpty, if_pos h]
    · subst h
      rw [autoAssignTimesIfEmpty]
      split_ifs <;> rfl
    · rw [autoAssignTimesIfEmpty]
      by_cases hd : duration ≤ 0
      · rw [if_pos hd]
      · rw [if_neg hd]
        by_cases hem : ss.isEmpty = true
        · rw [if_pos hem]
        · rw [if_neg hem, if_pos h]
  · intro hd hne hall
    set wc := ss.map fun s => let c := countWords s.text; if c ≤ 0 then 1 else c with hwc
    have hwc1 : ∀ x ∈ wc, 1 ≤ x := by
      intro x hx
      rw [hwc] at hx
      obtain ⟨s, _, rfl⟩ := List.mem_map.mp hx
      dsimp only
      split_ifs <;> omega
    have hwcne : wc ≠ [] := by
      rw [hwc]
      simp [hne]
    have hsum : 1 ≤ wc.sum := sum_pos_of_all_pos wc hwc1 hwcne
    have hlenwc : wc.length = ss.length := by rw [hwc, List.length_map]
    have hlenzip : (ss.zip wc).length = ss.length := by
      rw [List.length_zip, hlenwc, min_self]
    have hzipne : ss.zip wc ≠ [] := by
      intro hcon
      have := hlenzip
      rw [hcon] at this
      simp only [List.length_nil] at this
      exact hne (List.length_eq_zero.mp this.symm)
    have hmapsnd : (ss.zip wc).map Prod.snd = wc :=
      List.map_snd_zip ss wc (le_of_eq hlenwc)
    have hrun : autoAssignTimesIfEmpty duration ss = assignLoop duration wc.sum 0 (ss.zip wc) := by
      rw [autoAssignTimesIfEmpty, if_neg (not_le.mpr hd),
        if_neg (by simp [List.isEmpty_iff, hne]),
        if_neg (by rintro ⟨s, hs, hvalid⟩; exact hall s hs hvalid)]
      simp only [← hwc]
      rw [if_neg (by omega)]
    refine ⟨?_, ?_, ?_, ?_, ?_⟩
    · rw [hrun, assignLoop_length, hlenzip]
    · rw [hrun]
      exact assignLoop_head duration wc.sum (ss.zip wc) 0 hzipne
    · rw [hrun]
      exact assignLoop_chain duration wc.sum (ss.zip wc) 0
    · rw [hrun, assignLoop_last duration wc.sum (ss.zip wc) 0 hzipne, hmapsnd]
      congr 1
      rw [zero_add, mul_div_assoc,
        div_self (by exact_mod_cast (by omega : wc.sum ≠ 0) : ((wc.sum : ℚ)) ≠ 0), mul_one]
    · intro p hp
      rw [hrun] at hp
      have hsp := assignLoop_spans duration wc.sum (ss.zip wc) 0 p
      rw [hmapsnd] at hsp
      exact hsp hp

/-- C3 witness: a fresh two-sentence lesson (word weights 2 and 1) over a
10-second file gets `begin = 0` for the first sentence and `end = 10` for
the last. -/
theorem autoAssign_spec_witness :
    (autoAssignTimesIfEmpty 10
        [{ id := 1, text := "hello world".toList }, { id := 2, text := ['h', 'i'] }]).head?.map
      Sentence.begin = some 0 ∧
    (autoAssignTimesIfEmpty 10
        [{ id := 1, text := "hello world".toList }, { id := 2, text := ['h', 'i'] }]).getLast?.map
      Sentence.end_ = some 10 := by
  have h := (autoAssign_spec 10
      [{ id := 1, text := "hello world".toList }, { id := 2, text := ['h', 'i'] }]).2
    (by norm_num) (by simp) (by
      intro s hs
      rintro ⟨h0, _⟩
      rcases List.mem_cons.mp hs with rfl | hs2
      · norm_num at h0
      · rcases List.mem_cons.mp hs2 with rfl | hs3
        · norm_num at h0
        · simp at hs3)
  exact ⟨h.2.1, h.2.2.2.1⟩

/-! ## Claim C5: the text segmenter -/

theorem nonWhite_cons (c : Char) (s : Str) :
    nonWhite (c :: s) = nonWhite [c] ++ nonWhite s := by
  rw [nonWhite, nonWhite, nonWhite, List.filter_cons, List.filter_cons]
  split_ifs <;> simp

theorem flatten_splitWsAux : ∀ (s acc : Str),
    (splitWsAux acc s).flatten = acc.reverse ++ nonWhite s
  | [], acc => by
      rw [splitWsAux]
      by_cases h : acc.isEmpty
      · rw [if_pos h]
        simp only [List.isEmpty_iff] at h
        subst h
        rfl
      · rw [if_neg h]
        simp [nonWhite]
  | c :: rest, acc => by
      rw [splitWsAux]
      by_cases hw : c.isWhitespace = true
      · rw [if_pos hw, nonWhite_cons, show nonWhite [c] = [] from by simp [nonWhite, hw]]
        by_cases ha : acc.isEmpty
        · rw [if_pos ha, flatten_splitWsAux rest []]
          simp only [List.isEmpty_iff] at ha
          subst ha
          rfl
        · rw [if_neg ha, List.flatten_cons, flatten_splitWsAux rest []]
          simp
      · rw [if_neg hw, flatten_splitWsAux rest (c :: acc), nonWhite_cons,
          show nonWhite [c] = [c] from by simp [nonWhite, hw]]
        simp

theorem splitWs_flatten (s : Str) : (splitWs s).flatten = nonWhite s := by
  rw [splitWs, flatten_splitWsAux s []]
  rfl

theorem splitWsAux_noWhite : ∀ (s acc : Str), (∀ c ∈ acc, c.isWhitespace = false) →
    ∀ w ∈ splitWsAux acc s, ∀ c ∈ w, c.isWhitespace = false
  | [], acc, hacc => by
      rw [splitWsAux]
      split_ifs
      · simp
      · intro w hw
        rw [List.mem_singleton] at hw
        subst hw
        intro c hc
        exact hacc c (List.mem_reverse.mp hc)
  | c :: rest, acc, hacc => by
      rw [splitWsAux]
      by_cases hwsp : c.isWhitespace = true
      · rw [if_pos hwsp]
        by_cases ha : acc.isEmpty
        · rw [if_pos ha]
          exact splitWsAux_noWhite rest [] (by simp)
        · rw [if_neg ha]
          intro w hw
          rcases List.mem_cons.mp hw with h1 | h1
          · subst h1
            intro x hx
            exact hacc x (List.mem_reverse.mp hx)
          · exact splitWsAux_noWhite rest [] (by simp) w h1
      · rw [if_neg hwsp]
        refine splitWsAux_noWhite rest (c :: acc) ?_
        intro x hx
        rcases List.mem_cons.mp hx with h1 | h1
        · subst h1
          simpa using hwsp
        · exact hacc x h1

theorem splitWs_noWhite (s : Str) : ∀ w ∈ splitWs s, ∀ c ∈ w, c.isWhitespace = false :=
  splitWsAux_noWhite s [] (by simp)

theorem nonWhite_joinSpace : ∀ (l : List Str),
    (∀ w ∈ l, ∀ c ∈ w, c.isWhitespace = false) → nonWhite (joinSpace l) = l.flatten
  | [], _ => rfl
  | [w], h => by
      rw [joinSpace]
      simp only [List.flatten_cons, List.flatten_nil, List.append_nil]
      exact nonWhite_eq_self (h w (by simp))
  | w :: v :: rest, h => by
      rw [joinSpace, nonWhite_append, nonWhite_cons,
        show nonWhite [' '] = [] from by simp [nonWhite],
        nonWhite_joinSpace (v :: rest) (fun x hx => h x (by simp [hx])),
        nonWhite_eq_self (h w (by simp))]
      simp

theorem resplitAux_flatten : ∀ (ws cur : List Str),
    (∀ w ∈ ws, ∀ c ∈ w, c.isWhitespace = false) →
    (∀ w ∈ cur, ∀ c ∈ w, c.isWhitespace = false) →
    nonWhite (resplitAux ws cur).flatten = cur.reverse.flatten ++ ws.flatten
  | [], cur, _, hcur => by
      rw [resplitAux]
      by_cases h : cur.isEmpty
      · rw [if_pos h]
        simp only [List.isEmpty_iff] at h
        subst h
        rfl
      · rw [if_neg h]
        simp only [List.flatten_cons, List.flatten_nil, List.append_nil]
        rw [nonWhite_trim, nonWhite_joinSpace cur.reverse
          (fun w hw => hcur w (List.mem_reverse.mp hw))]
  | w :: rest, cur, hws, hcur => by
      rw [resplitAux]
      split_ifs with hC
      · rw [List.flatten_cons, nonWhite_append, nonWhite_trim,
          nonWhite_joinSpace (cur.reverse ++ [w]) (by
            intro x hx
            rcases List.mem_append.mp hx with h1 | h1
            · exact hcur x (List.mem_reverse.mp h1)
            · rw [List.mem_singleton] at h1
              subst h1
              exact hws x (by simp)),
          resplitAux_flatten rest [] (fun x hx => hws x (by simp [hx])) (by simp)]
        simp
      · rw [resplitAux_flatten rest (w :: cur) (fun x hx => hws x (by simp [hx])) (by
          intro x hx
          rcases List.mem_cons.mp hx with h1 | h1
          · subst h1
            exact hws x (by simp)
          · exact hcur x h1)]
        simp

theorem baseScanAux_sublist : ∀ (s acc : Str),
    (nonWhite (baseScanAux acc s).flatten).Sublist (nonWhite acc.reverse ++ nonWhite s)
  | [], acc => by
      rw [baseScanAux]
      exact List.nil_sublist _
  | c :: rest, acc => by
      rw [baseScanAux]
      by_cases ht : isTerm c = true
      · rw [if_pos ht]
        have hcnw : nonWhite [c] = [c] := by
          simp [nonWhite, isTerm_isWhitespace_false ht]
        by_cases ha : acc.isEmpty
        · rw [if_pos ha]
          refine List.Sublist.trans (baseScanAux_sublist rest []) ?_
          rw [show nonWhite (List.reverse []) ++ nonWhite rest = nonWhite rest from by
              simp [nonWhite],
            nonWhite_cons c rest, hcnw, ← List.append_assoc]
          exact List.sublist_append_right _ _
        · rw [if_neg ha]
          by_cases he : (trim (acc.reverse ++ [c])).isEmpty
          · rw [if_pos he]
            refine List.Sublist.trans (baseScanAux_sublist rest []) ?_
            rw [show nonWhite (List.reverse []) ++ nonWhite rest = nonWhite rest from by
                simp [nonWhite],
              nonWhite_cons c rest, hcnw, ← List.append_assoc]
            exact List.sublist_append_right _ _
          · rw [if_neg he, List.flatten_cons, nonWhite_append, nonWhite_trim,
              nonWhite_append, hcnw, nonWhite_cons c rest, hcnw]
            rw [List.append_assoc, ← List.append_assoc (nonWhite acc.reverse)]
            rw [← List.append_assoc]
            exact (baseScanAux_sublist rest []).append_left _
      · rw [if_neg ht]
        have := baseScanAux_sublist rest (c :: acc)
        rw [List.reverse_cons, nonWhite_append] at this
        rw [nonWhite_cons c rest, ← List.append_assoc]
        exact this

theorem baseScanAux_no_term : ∀ (s acc : Str), (∀ c ∈ s, isTerm c = false) →
    baseScanAux acc s = []
  | [], acc, _ => by rw [baseScanAux]
  | c :: rest, acc, h => by
      rw [baseScanAux, if_neg (by simp [h c (by simp)])]
      exact baseScanAux_no_term rest (c :: acc) (fun x hx => h x (by simp [hx]))

theorem baseSplit_sublist (text : Str) :
    (nonWhite (baseSplitSentences text).flatten).Sublist (nonWhite text) := by
  rw [baseSplitSentences]
  by_cases hres : (baseScanAux [] text).isEmpty
  · rw [if_pos hres]
    by_cases he : (trim text).isEmpty
    · rw [if_pos he]
      exact List.nil_sublist _
    · rw [if_neg he]
      simp only [List.flatten_cons, List.flatten_nil, List.append_nil]
      exact (nonWhite_trim text) ▸ List.Sublist.refl _
  · rw [if_neg hres]
    simpa using baseScanAux_sublist text []

theorem baseSplit_no_term (text : Str) (h : ∀ c ∈ text, isTerm c = false) :
    nonWhite (baseSplitSentences text).flatten = nonWhite text := by
  rw [baseSplitSentences, baseScanAux_no_term text [] h]
  simp only [List.isEmpty_nil, if_true]
  by_cases he : (trim text).isEmpty
  · rw [if_pos he]
    simp only [List.isEmpty_iff] at he
    rw [List.flatten_nil, ← nonWhite_trim text, he]
  · rw [if_neg he]
    simp only [List.flatten_cons, List.flatten_nil, List.append_nil]
    exact nonWhite_trim text

theorem perSeg_nonWhite (s0 : Str) :
    nonWhite ((if (trim s0).isEmpty = true then []
      else
        if (splitWs (trim s0)).length ≤ MAX_WORDS then [trim s0]
        else resplitAux (splitWs (trim s0)) []).flatten) = nonWhite s0 := by
  by_cases he : (trim s0).isEmpty = true
  · rw [if_pos he]
    simp only [List.isEmpty_iff] at he
    rw [List.flatten_nil, ← nonWhite_trim s0, he]
  · rw [if_neg he]
    by_cases hlen : (splitWs (trim s0)).length ≤ MAX_WORDS
    · rw [if_pos hlen]
      simp only [List.flatten_cons, List.flatten_nil, List.append_nil]
      exact nonWhite_trim s0
    · rw [if_neg hlen,
        resplitAux_flatten (splitWs (trim s0)) [] (splitWs_noWhite (trim s0)) (by simp)]
      rw [splitWs_flatten, nonWhite_trim]
      · simp [nonWhite]

theorem advanced_nonWhite (text : Str) :
    nonWhite (splitTextIntoSentencesAdvanced text).flatten =
      nonWhite (baseSplitSentences text).flatten := by
  rw [splitTextIntoSentencesAdvanced]
  have hmap : ∀ l : List Str,
      nonWhite ((l.map fun s0 =>
        if (trim s0).isEmpty = true then []
        else
          if (splitWs (trim s0)).length ≤ MAX_WORDS then [trim s0]
          else resplitAux (splitWs (trim s0)) []).flatten).flatten = nonWhite l.flatten := by
    intro l
    induction l with
    | nil => rfl
    | cons a rest ih =>
        rw [List.map_cons, List.flatten_cons, List.flatten_append, nonWhite_append, ih,
          List.flatten_cons, nonWhite_append, perSeg_nonWhite a]
  by_cases hout : ((baseSplitSentences text).map fun s0 =>
      if (trim s0).isEmpty = true then []
      else
        if (splitWs (trim s0)).length ≤ MAX_WORDS then [trim s0]
        else resplitAux (splitWs (trim s0)) []).flatten.isEmpty = true
  · rw [if_pos hout]
  · rw [if_neg hout]
    exact hmap (baseSplitSentences text)

/-- C5 counterexample: on the input `"Hi. there"` the segmenter returns
only `["Hi."]` — the non-whitespace characters `there` after the last
sentence terminator are dropped, so the concatenation of the segments
does not reproduce the input's non-whitespace characters. -/
theorem segmenter_drops_trailing_text :
    nonWhite (splitTextIntoSentencesAdvanced "Hi. there".toList).flatten ≠
      nonWhite "Hi. there".toList := by decide

/-- C5 amended: concatenating all segments (ignoring spacing) always
yields an order-preserving subsequence of the input's non-whitespace
characters — nothing is invented or reordered — and when the input
contains no sentence terminator at all, nothing is dropped either; but
text after the last terminator (and terminator characters not preceded by
run content) can be dropped. -/
theorem segmenter_subsequence (text : Str) :
    (nonWhite (splitTextIntoSentencesAdvanced text).flatten).Sublist (nonWhite text) ∧
    ((∀ c ∈ text, isTerm c = false) →
      nonWhite (splitTextIntoSentencesAdvanced text).flatten = nonWhite text) := by
  constructor
  · rw [advanced_nonWhite]
    exact baseSplit_sublist text
  · intro h
    rw [advanced_nonWhite]
    exact baseSplit_no_term text h

/-- C5 witness: on a terminator-free input the segmenter reproduces every
non-whitespace character. -/
theorem segmenter_subsequence_witness :
    nonWhite (splitTextIntoSentencesAdvanced "hello world".toList).flatten =
      nonWhite "hello world".toList :=
  (segmenter_subsequence "hello world".toList).2 (by decide)

/-- C6 witness: the spec's own example — a `[10, 10.5]` segment in a
60-second file gives the interior window `[10 - 1/6, 10.5 + 1/6]`
(≈ `[9.83, 10.67]`). -/
theorem autoZoom_spec_witness :
    (autoZoomToSegment { duration := 60, viewStart := 0, viewEnd := 60, hasView := false }
        10 (21/2)).viewStart = 10 - 1/6 ∧
    (autoZoomToSegment { duration := 60, viewStart := 0, viewEnd := 60, hasView := false }
        10 (21/2)).viewEnd = 21/2 + 1/6 :=
  (autoZoom_spec { duration := 60, viewStart := 0, viewEnd := 60, hasView := false }
      10 (21/2) (by norm_num) (by norm_num) (by norm_num) (21/2) (1/2) (5/6) (1/6)
      (by norm_num [min_def]) (by norm_num [max_def]) (by norm_num [min_def])
      (by norm_num)).2.2.2.1 ⟨by norm_num, by norm_num⟩

end Shadowing
